import Mathlib

/-!
# The PDF tokenizer's string and key trackers (`src/js_norm/pdf_tokenizer.h`)

A shallow embedding of the state that `jsn::PDFTokenizer` keeps between tokens
(`obj_string`, `obj_array`, `obj_dictionary`, `obj_entry`) and of the four inline
handlers defined in the header: `h_lit_str`, `h_hex_str`, `h_lit_open`, `h_lit_close`.

* A C++ `int` is a `CInt`: an integer between `INT_MIN` and `INT_MAX` (32 bits).
  `++` and `--` are taken modulo `2 ^ 32` (two's complement); C++ itself leaves the
  result of a signed overflow undefined, so every theorem that depends on the wrapped
  value says so.
* A `char` is a `Byte` (its value as `unsigned char`, which is what `strcmp` compares).
* `char key[16]` is a list of exactly 16 bytes.
* A handler that changes the tokenizer returns its result together with the new state.
-/

namespace jsn

/-- Capacity of the key buffer: `#define PDFTOKENIZER_NAME_MAX_SIZE 16`. -/
def PDFTOKENIZER_NAME_MAX_SIZE : Nat := 16

/-! ## Machine integers and bytes -/

/-- Smallest value of a 32-bit `int`. -/
def INT_MIN : Int := -2147483648

/-- Largest value of a 32-bit `int`. -/
def INT_MAX : Int := 2147483647

/-- A C++ `int`: an integer in the range `INT_MIN .. INT_MAX`. -/
structure CInt where
  val : Int
  lo : INT_MIN ≤ val
  hi : val ≤ INT_MAX

namespace CInt

instance : DecidableEq CInt := fun a b =>
  if h : a.val = b.val then
    isTrue (by cases a; cases b; cases h; rfl)
  else
    isFalse (fun e => h (by rw [e]))

/-- Reduction of an integer into the `int` range modulo `2 ^ 32`. -/
def wrap (x : Int) : CInt :=
  ⟨(x - INT_MIN) % 4294967296 + INT_MIN,
   by unfold INT_MIN; omega,
   by unfold INT_MIN INT_MAX; omega⟩

/-- An `int` constant that is in range. -/
def ofInt (x : Int) (h : INT_MIN ≤ x ∧ x ≤ INT_MAX) : CInt := ⟨x, h.1, h.2⟩

/-- The value `0`. -/
def zero : CInt := ⟨0, by decide, by decide⟩

/-- The value `INT_MAX`. -/
def max : CInt := ⟨INT_MAX, by decide, by decide⟩

/-- The value `INT_MIN`. -/
def min : CInt := ⟨INT_MIN, by decide, by decide⟩

/-- Pre-increment `++x`: the new value of `x` (also the value of the expression). -/
def preInc (x : CInt) : CInt := wrap (x.val + 1)

/-- Pre-decrement `--x`: the new value of `x` (also the value of the expression). -/
def preDec (x : CInt) : CInt := wrap (x.val - 1)

end CInt

/-- A `char`, by its value as `unsigned char`. -/
abbrev Byte := Fin 256

/-- The string literal `"/JS"` as it lies in memory: three characters and the terminator. -/
def lit_JS : List Byte := [47, 74, 83, 0]

/-- The C string that starts at the beginning of a buffer: the bytes before the first NUL. -/
def cstr (buf : List Byte) : List Byte := buf.takeWhile (fun c => c ≠ 0)

/-- The bytes of a buffer up to and including the first NUL (the whole buffer when it has
no NUL): the part of the buffer that a C string occupies. -/
def through_nul : List Byte → List Byte
  | [] => []
  | c :: r => if c = 0 then [c] else c :: through_nul r

/-- The library function `strcmp` on two buffers: bytes are compared as `unsigned char`
until they differ or both are NUL. The result is `none` when the comparison would read
past the end of a buffer. -/
def strcmp : List Byte → List Byte → Option Int
  | c1 :: r1, c2 :: r2 =>
    if c1 = c2 then
      if c1 = 0 then some 0 else strcmp r1 r2
    else some ((c1.val : Int) - (c2.val : Int))
  | _, _ => none

/-! ## The tokenizer's state -/

namespace PDFTokenizer

/-- The enumeration `PDFRet`. -/
inductive PDFRet where
  | EOS
  | NOT_NAME_IN_DICTIONARY_KEY
  | INCOMPLETE_ARRAY_IN_DICTIONARY
  | MAX
  deriving DecidableEq, Repr

/-- The integer value of an enumerator: `EOS = 0`, the others count up from it. -/
def PDFRet.toInt : PDFRet → Int
  | .EOS => 0
  | .NOT_NAME_IN_DICTIONARY_KEY => 1
  | .INCOMPLETE_ARRAY_IN_DICTIONARY => 2
  | .MAX => 3

/-- The struct `ObjectString`. -/
structure ObjectString where
  parenthesis_level : CInt := CInt.zero
  deriving DecidableEq

/-- The struct `ObjectArray`. -/
structure ObjectArray where
  nesting_level : CInt := CInt.zero
  deriving DecidableEq

/-- The struct `ObjectDictionary`. -/
structure ObjectDictionary where
  key_value : Bool := true
  array_level : CInt := CInt.zero
  deriving DecidableEq

/-- The struct `DictionaryEntry`: `char key[PDFTOKENIZER_NAME_MAX_SIZE]`. -/
structure DictionaryEntry where
  key : List Byte := List.replicate PDFTOKENIZER_NAME_MAX_SIZE 0
  key_size : key.length = PDFTOKENIZER_NAME_MAX_SIZE := by decide

instance : DecidableEq DictionaryEntry := fun a b =>
  if h : a.key = b.key then
    isTrue (by cases a; cases b; cases h; rfl)
  else
    isFalse (fun e => h (by rw [e]))

/-- The member function `ObjectString::clear`. -/
def ObjectString.clear (_o : ObjectString) : ObjectString :=
  { parenthesis_level := CInt.zero }

/-- The member function `ObjectArray::clear`. -/
def ObjectArray.clear (_o : ObjectArray) : ObjectArray :=
  { nesting_level := CInt.zero }

/-- The member function `ObjectDictionary::clear`. -/
def ObjectDictionary.clear (_o : ObjectDictionary) : ObjectDictionary :=
  { key_value := true, array_level := CInt.zero }

/-- The member function `DictionaryEntry::clear`: only `key[0]` is written. -/
def DictionaryEntry.clear (e : DictionaryEntry) : DictionaryEntry :=
  { key := e.key.set 0 0, key_size := by rw [List.length_set]; exact e.key_size }

end PDFTokenizer

/-- The data members of `class PDFTokenizer`. -/
structure PDFTokenizer where
  obj_string : PDFTokenizer.ObjectString := {}
  obj_array : PDFTokenizer.ObjectArray := {}
  obj_dictionary : PDFTokenizer.ObjectDictionary := {}
  obj_entry : PDFTokenizer.DictionaryEntry := {}
  deriving DecidableEq

namespace PDFTokenizer

/-- The members as their default initializers leave them in a new tokenizer. -/
def fresh : PDFTokenizer := {}

/-- The handler `PDFTokenizer::h_lit_str`. -/
def h_lit_str (t : PDFTokenizer) : Bool :=
  decide (t.obj_dictionary.array_level = t.obj_array.nesting_level)
    && decide (strcmp t.obj_entry.key lit_JS = some 0)

/-- The handler `PDFTokenizer::h_hex_str`. -/
def h_hex_str (t : PDFTokenizer) : Bool :=
  decide (t.obj_dictionary.array_level = t.obj_array.nesting_level)
    && decide (strcmp t.obj_entry.key lit_JS = some 0)

/-- The handler `PDFTokenizer::h_lit_open`: the result and the tokenizer after the call. -/
def h_lit_open (t : PDFTokenizer) : Bool × PDFTokenizer :=
  let level := t.obj_string.parenthesis_level.preInc
  (decide (level.val = 1), { t with obj_string := { parenthesis_level := level } })

/-- The handler `PDFTokenizer::h_lit_close`: the result and the tokenizer after the call. -/
def h_lit_close (t : PDFTokenizer) : Bool × PDFTokenizer :=
  let level := t.obj_string.parenthesis_level.preDec
  (decide (level.val = 0), { t with obj_string := { parenthesis_level := level } })

/-- A call of `clear()` on each of the four trackers. -/
def clear_all (t : PDFTokenizer) : PDFTokenizer :=
  { obj_string := t.obj_string.clear,
    obj_array := t.obj_array.clear,
    obj_dictionary := t.obj_dictionary.clear,
    obj_entry := t.obj_entry.clear }

/-- A key buffer that holds `/JS` and is zero after it. -/
def entry_JS : DictionaryEntry :=
  { key := [47, 74, 83, 0, 0, 0, 0, 0, 0, 0, 0, 0, 0, 0, 0, 0] }

/-- A tokenizer whose key is `/JS` and whose two depths are both 0. -/
def state_JS : PDFTokenizer := { obj_entry := entry_JS }

/-- The tokenizer `t` with `obj_array.nesting_level` set to `n`. -/
def with_nesting (t : PDFTokenizer) (n : CInt) : PDFTokenizer :=
  { t with obj_array := { nesting_level := n } }

/-- A tokenizer that is new except for its parenthesis level. -/
def at_level (n : CInt) : PDFTokenizer := { obj_string := { parenthesis_level := n } }

/-- The value of `obj_string.parenthesis_level`. -/
abbrev level (t : PDFTokenizer) : Int := t.obj_string.parenthesis_level.val

/-- A parenthesis seen by the literal-string tracker: `(` is answered by a call of
`h_lit_open`, `)` by a call of `h_lit_close`. -/
inductive Paren where
  | lit_open
  | lit_close
  deriving DecidableEq, Repr

/-- The handler call that a parenthesis stands for. -/
def call (t : PDFTokenizer) : Paren → Bool × PDFTokenizer
  | .lit_open => h_lit_open t
  | .lit_close => h_lit_close t

/-- A sequence of handler calls, one after the other: the results in order and the
tokenizer after the last call. -/
def run_calls (t : PDFTokenizer) : List Paren → List Bool × PDFTokenizer
  | [] => ([], t)
  | p :: ps =>
    ((call t p).1 :: (run_calls (call t p).2 ps).1, (run_calls (call t p).2 ps).2)

/-- Number of `h_lit_open` calls in a sequence. -/
def opens (ps : List Paren) : Nat := ps.count .lit_open

/-- Number of `h_lit_close` calls in a sequence. -/
def closes (ps : List Paren) : Nat := ps.count .lit_close

/-- One balanced group: as many opens as closes in the whole sequence, and strictly more
opens than closes in every non-empty proper prefix. -/
def balanced_group (ps : List Paren) : Prop :=
  opens ps = closes ps ∧
    ∀ k, k < ps.length → 0 < k → closes (ps.take k) < opens (ps.take k)

instance (ps : List Paren) : Decidable (balanced_group ps) := by
  unfold balanced_group
  infer_instance

/-- The nesting of a sequence stays at or below `bound`: no prefix has more than `bound`
opens in excess of its closes. -/
def nesting_le (ps : List Paren) (bound : Int) : Prop :=
  ∀ k, k < ps.length + 1 → (opens (ps.take k) : Int) - (closes (ps.take k) : Int) ≤ bound

instance (ps : List Paren) (bound : Int) : Decidable (nesting_le ps bound) := by
  unfold nesting_le
  infer_instance

/-- A balanced group nested `2 ^ 32 + 1` deep: that many opens, then as many closes. -/
def deep_group : List Paren :=
  List.replicate 4294967297 .lit_open ++ List.replicate 4294967297 .lit_close

/-- An operation on the string tracker: a call of `h_lit_open`, of `h_lit_close`, or of
`ObjectString::clear`. -/
inductive StringOp where
  | lit_open
  | lit_close
  | clear
  deriving DecidableEq, Repr

/-- The tokenizer after one operation on the string tracker. -/
def apply_op (t : PDFTokenizer) : StringOp → PDFTokenizer
  | .lit_open => (h_lit_open t).2
  | .lit_close => (h_lit_close t).2
  | .clear => { t with obj_string := t.obj_string.clear }

/-- The tokenizer after a sequence of operations on the string tracker. -/
def run_ops (t : PDFTokenizer) : List StringOp → PDFTokenizer
  | [] => t
  | op :: ops => run_ops (apply_op t op) ops

/-- Every `h_lit_close` of the sequence is called inside a string (at a level of at
least 1) and every `h_lit_open` below `INT_MAX`. -/
def matched (t : PDFTokenizer) : List StringOp → Bool
  | [] => true
  | .lit_open :: ops =>
    decide (t.obj_string.parenthesis_level.val < INT_MAX)
      && matched (apply_op t .lit_open) ops
  | .lit_close :: ops =>
    decide (1 ≤ t.obj_string.parenthesis_level.val)
      && matched (apply_op t .lit_close) ops
  | .clear :: ops => matched (apply_op t .clear) ops

/-- The name held by a key buffer after a truncating copy: at most
`PDFTOKENIZER_NAME_MAX_SIZE - 1` bytes of the name, then the terminator. -/
def holds_name (e : DictionaryEntry) (name : List Byte) : Prop :=
  ∃ pad : List Byte, e.key = name.take (PDFTOKENIZER_NAME_MAX_SIZE - 1) ++ 0 :: pad

/-- A key buffer that holds the first 15 bytes of `/JS0123456789abcdef`. -/
def entry_long : DictionaryEntry :=
  { key := [47, 74, 83, 48, 49, 50, 51, 52, 53, 54, 55, 56, 57, 97, 98, 0] }

/-- A call of `h_lit_str` as a step of the tokenizer: the result and the tokenizer after
the call. The body is one `return` of an expression that reads members and writes none. -/
def h_lit_str_call (t : PDFTokenizer) : Bool × PDFTokenizer := (h_lit_str t, t)

/-- A call of `h_hex_str` as a step of the tokenizer: the result and the tokenizer after
the call. The body is one `return` of an expression that reads members and writes none. -/
def h_hex_str_call (t : PDFTokenizer) : Bool × PDFTokenizer := (h_hex_str t, t)

/-- A tokenizer in value position, inside a string at parenthesis level 5, whose key
buffer holds `/JS`, the terminator, and then bytes left from a longer key. -/
def state_JS_stale : PDFTokenizer :=
  { obj_string := { parenthesis_level := CInt.ofInt 5 (by decide) },
    obj_dictionary := { key_value := false },
    obj_entry := { key := [47, 74, 83, 0, 112, 101, 110, 65, 99, 116, 105, 111, 110, 0, 7, 9] } }

/-- The parentheses of `(a(b)c)`. -/
def parens_a_b_c : List Paren := [.lit_open, .lit_open, .lit_close, .lit_close]

end PDFTokenizer

/-! ## Helper lemmas -/

/-- Inside the `int` range the reduction modulo `2 ^ 32` changes nothing. -/
theorem CInt.wrap_val_of_range (x : Int) (hlo : INT_MIN ≤ x) (hhi : x ≤ INT_MAX) :
    (CInt.wrap x).val = x := by
  unfold INT_MIN at hlo
  unfold INT_MAX at hhi
  simp only [CInt.wrap, INT_MIN]
  omega

/-- Below `INT_MAX`, `++x` is `x + 1`. -/
theorem CInt.preInc_val (x : CInt) (h : x.val < INT_MAX) : x.preInc.val = x.val + 1 := by
  have hlo := x.lo
  exact CInt.wrap_val_of_range _ (by omega) (by omega)

/-- Above `INT_MIN`, `--x` is `x - 1`. -/
theorem CInt.preDec_val (x : CInt) (h : INT_MIN < x.val) : x.preDec.val = x.val - 1 := by
  have hhi := x.hi
  exact CInt.wrap_val_of_range _ (by omega) (by omega)

/-- Against the literal `"/JS"` the comparison reads at most four bytes of the key, so it
never leaves a buffer of four bytes or more. -/
theorem strcmp_lit_JS_isSome (l : List Byte) (h : 4 ≤ l.length) :
    (strcmp l lit_JS).isSome = true := by
  match l, h with
  | a :: b :: c :: d :: rest, _ =>
    simp only [strcmp, lit_JS]
    split_ifs <;> simp

/-- Two different bytes have a non-zero difference. -/
theorem byte_sub_ne_zero (x y : Byte) (h : x ≠ y) : ((x.val : Int) - (y.val : Int)) ≠ 0 := by
  intro h0
  apply h
  apply Fin.ext
  omega

/-- On a buffer of four bytes or more, `strcmp` with `"/JS"` gives 0 exactly when the
buffer's C string is `/JS`. -/
theorem strcmp_lit_JS_eq_zero_iff (l : List Byte) (h : 4 ≤ l.length) :
    strcmp l lit_JS = some 0 ↔ cstr l = [47, 74, 83] := by
  match l, h with
  | a :: b :: c :: d :: rest, _ =>
    simp only [strcmp, lit_JS, cstr]
    by_cases ha : a = 47
    · by_cases hb : b = 74
      · by_cases hc : c = 83
        · by_cases hd : d = 0
          · subst ha hb hc hd
            simp [List.takeWhile]
          · subst ha hb hc
            have hd' := byte_sub_ne_zero d 0 hd
            simp [List.takeWhile, hd] at hd' ⊢
            exact hd'
        · subst ha hb
          have hc' := byte_sub_ne_zero c 83 hc
          by_cases hc0 : c = 0
          · subst hc0; simpa [List.takeWhile] using hc'
          · simp [List.takeWhile, hc, hc0] at hc' ⊢
            exact hc'
      · subst ha
        have hb' := byte_sub_ne_zero b 74 hb
        by_cases hb0 : b = 0
        · subst hb0; simpa [List.takeWhile] using hb'
        · simp [List.takeWhile, hb, hb0] at hb' ⊢
          exact hb'
    · have ha' := byte_sub_ne_zero a 47 ha
      by_cases ha0 : a = 0
      · subst ha0; simpa [List.takeWhile] using ha'
      · simp [List.takeWhile, ha, ha0] at ha' ⊢
        exact ha'

namespace PDFTokenizer

/-- The key buffer has room for the four bytes that `strcmp` may read. -/
theorem four_le_key_length (t : PDFTokenizer) : 4 ≤ t.obj_entry.key.length := by
  rw [t.obj_entry.key_size]; decide

/-- The comparison in `h_lit_str` and `h_hex_str` stays inside the key buffer. -/
theorem strcmp_key_isSome (t : PDFTokenizer) :
    (strcmp t.obj_entry.key lit_JS).isSome = true :=
  strcmp_lit_JS_isSome _ t.four_le_key_length

/-- The match predicate, spelled out. -/
theorem h_lit_str_eq_true_iff (t : PDFTokenizer) :
    t.h_lit_str = true ↔
      t.obj_dictionary.array_level = t.obj_array.nesting_level ∧
        cstr t.obj_entry.key = [47, 74, 83] := by
  unfold h_lit_str
  rw [Bool.and_eq_true, decide_eq_true_iff, decide_eq_true_iff,
    strcmp_lit_JS_eq_zero_iff _ t.four_le_key_length]

/-- The match predicate is false exactly when one of its two conditions fails. -/
theorem h_lit_str_eq_false_iff (t : PDFTokenizer) :
    t.h_lit_str = false ↔
      ¬ (t.obj_dictionary.array_level = t.obj_array.nesting_level ∧
        cstr t.obj_entry.key = [47, 74, 83]) := by
  rw [← h_lit_str_eq_true_iff, Bool.not_eq_true]

/-- The two string handlers compute the same boolean. -/
theorem h_hex_str_eq (t : PDFTokenizer) : t.h_hex_str = t.h_lit_str := rfl

/-! ## The match predicate (C1, C2, C3) -/

/-- C1: for every tokenizer state, `h_lit_str` returns true if and only if
`obj_dictionary.array_level` equals `obj_array.nesting_level` and the key buffer, read as
a NUL-terminated string, is exactly the three bytes `/JS`. A key that reads as `/JS`
followed by a further byte, as `/js`, as `/J`, as `JS` or as the empty string gives
false. -/
theorem C1_h_lit_str_iff (t : PDFTokenizer) :
    (t.h_lit_str = true ↔
      t.obj_dictionary.array_level = t.obj_array.nesting_level ∧
        cstr t.obj_entry.key = [47, 74, 83]) ∧
    (∀ (b : Byte) (rest : List Byte),
      cstr t.obj_entry.key = [47, 74, 83] ++ b :: rest → t.h_lit_str = false) ∧
    (cstr t.obj_entry.key = [47, 106, 115] → t.h_lit_str = false) ∧
    (cstr t.obj_entry.key = [47, 74] → t.h_lit_str = false) ∧
    (cstr t.obj_entry.key = [74, 83] → t.h_lit_str = false) ∧
    (cstr t.obj_entry.key = [] → t.h_lit_str = false) := by
  refine ⟨h_lit_str_eq_true_iff t, ?_, ?_, ?_, ?_, ?_⟩
  · intro b rest h
    rw [h_lit_str_eq_false_iff, h]
    simp
  all_goals
    intro h
    rw [h_lit_str_eq_false_iff, h]
    simp

/-- C1 on concrete keys: `/JS` at equal depths matches; `/JSX`, `/js`, `/J`, `JS` and the
empty key do not. -/
theorem C1_h_lit_str_examples :
    state_JS.h_lit_str = true ∧
    h_lit_str { obj_entry := { key := [47, 74, 83, 88, 0, 0, 0, 0, 0, 0, 0, 0, 0, 0, 0, 0] } }
      = false ∧
    h_lit_str { obj_entry := { key := [47, 106, 115, 0, 0, 0, 0, 0, 0, 0, 0, 0, 0, 0, 0, 0] } }
      = false ∧
    h_lit_str { obj_entry := { key := [47, 74, 0, 0, 0, 0, 0, 0, 0, 0, 0, 0, 0, 0, 0, 0] } }
      = false ∧
    h_lit_str { obj_entry := { key := [74, 83, 0, 0, 0, 0, 0, 0, 0, 0, 0, 0, 0, 0, 0, 0] } }
      = false ∧
    h_lit_str fresh = false := by
  decide

/-- C2: the output policy for hex strings is the one for literal strings: for every
tokenizer state `h_hex_str` returns the same boolean as `h_lit_str`. -/
theorem C2_h_hex_str_eq_h_lit_str (t : PDFTokenizer) : t.h_hex_str = t.h_lit_str := by
  unfold h_hex_str h_lit_str
  rfl

/-- C3: depth isolation. For every state whose key is `/JS`: when `array_level` differs
from `nesting_level`, both `h_lit_str` and `h_hex_str` return false; and when the two are
equal the predicate holds, the state whose `nesting_level` is higher by any `k ≥ 1` makes
both handlers false, and lowering that level back by `k` makes both true again. -/
theorem C3_depth_isolation (t : PDFTokenizer) (hkey : cstr t.obj_entry.key = [47, 74, 83]) :
    (t.obj_dictionary.array_level ≠ t.obj_array.nesting_level →
      t.h_lit_str = false ∧ t.h_hex_str = false) ∧
    (t.obj_dictionary.array_level = t.obj_array.nesting_level →
      t.h_lit_str = true ∧ t.h_hex_str = true ∧
      ∀ (k : Int) (up : CInt), 1 ≤ k → up.val = t.obj_array.nesting_level.val + k →
        (t.with_nesting up).h_lit_str = false ∧ (t.with_nesting up).h_hex_str = false ∧
        ∀ down : CInt, down.val = up.val - k →
          ((t.with_nesting up).with_nesting down).h_lit_str = true ∧
          ((t.with_nesting up).with_nesting down).h_hex_str = true) := by
  have hne : ∀ u : PDFTokenizer, u.obj_dictionary.array_level ≠ u.obj_array.nesting_level →
      u.h_lit_str = false ∧ u.h_hex_str = false := by
    intro u hu
    have : u.h_lit_str = false := by
      rw [h_lit_str_eq_false_iff]
      exact fun h => hu h.1
    exact ⟨this, by rw [h_hex_str_eq u]; exact this⟩
  refine ⟨hne t, ?_⟩
  intro heq
  have ht : t.h_lit_str = true := (h_lit_str_eq_true_iff t).2 ⟨heq, hkey⟩
  refine ⟨ht, by rw [h_hex_str_eq t]; exact ht, ?_⟩
  intro k up hk hup
  have hup_ne : (t.with_nesting up).obj_dictionary.array_level ≠
      (t.with_nesting up).obj_array.nesting_level := by
    intro h
    have h' : t.obj_array.nesting_level.val = up.val :=
      congrArg CInt.val (heq.symm.trans h)
    omega
  refine ⟨(hne _ hup_ne).1, (hne _ hup_ne).2, ?_⟩
  intro down hdown
  have hd : down = t.obj_array.nesting_level := by
    cases down; cases hn : t.obj_array.nesting_level
    simp only [hn] at hup
    simp only [CInt.mk.injEq]
    simp only at hdown
    omega
  have hst : (t.with_nesting up).with_nesting down = t := by
    subst hd
    rfl
  rw [hst]
  exact ⟨ht, by rw [h_hex_str_eq t]; exact ht⟩

/-- C3 at a concrete state: key `/JS`, both depths 0; two array opens hide the key, two
array closes bring it back. -/
theorem C3_depth_isolation_witness :
    cstr state_JS.obj_entry.key = [47, 74, 83] ∧
    state_JS.h_lit_str = true ∧
    (state_JS.with_nesting (CInt.ofInt 2 (by decide))).h_lit_str = false ∧
    (state_JS.with_nesting (CInt.ofInt 2 (by decide))).h_hex_str = false ∧
    ((state_JS.with_nesting (CInt.ofInt 2 (by decide))).with_nesting CInt.zero).h_lit_str
      = true :=
  have h := (C3_depth_isolation state_JS (by decide)).2 (by decide)
  have h2 := h.2.2 2 (CInt.ofInt 2 (by decide)) (by decide) (by decide)
  ⟨by decide, h.1, h2.1, h2.2.1, (h2.2.2 CInt.zero (by decide)).1⟩

/-! ## The literal-string parenthesis level (C4, C5) -/

/-- Below `INT_MAX`, `h_lit_open` adds one to the level and tells whether it is now 1. -/
theorem h_lit_open_of_lt (t : PDFTokenizer) (h : t.obj_string.parenthesis_level.val < INT_MAX) :
    (h_lit_open t).2.obj_string.parenthesis_level.val
      = t.obj_string.parenthesis_level.val + 1 ∧
    (h_lit_open t).1 = decide (t.obj_string.parenthesis_level.val + 1 = 1) := by
  have hv := CInt.preInc_val _ h
  simp only [h_lit_open, hv, and_self]

/-- Above `INT_MIN`, `h_lit_close` takes one from the level and tells whether it is now 0. -/
theorem h_lit_close_of_gt (t : PDFTokenizer) (h : INT_MIN < t.obj_string.parenthesis_level.val) :
    (h_lit_close t).2.obj_string.parenthesis_level.val
      = t.obj_string.parenthesis_level.val - 1 ∧
    (h_lit_close t).1 = decide (t.obj_string.parenthesis_level.val - 1 = 0) := by
  have hv := CInt.preDec_val _ h
  simp only [h_lit_close, hv, and_self]

/-- C4 fails as stated at `parenthesis_level = INT_MAX`: the level is at least 1, but
after `h_lit_open` it is `INT_MIN`, which is neither the old level plus one nor at
least 2. -/
theorem C4_h_lit_open_counterexample :
    1 ≤ (at_level CInt.max).obj_string.parenthesis_level.val ∧
    (h_lit_open (at_level CInt.max)).2.obj_string.parenthesis_level.val = -2147483648 ∧
    (h_lit_open (at_level CInt.max)).2.obj_string.parenthesis_level.val ≠
      (at_level CInt.max).obj_string.parenthesis_level.val + 1 ∧
    ¬ 2 ≤ (h_lit_open (at_level CInt.max)).2.obj_string.parenthesis_level.val := by
  decide

/-- C4, amended: for every state whose `parenthesis_level` is below `INT_MAX`,
`h_lit_open` increases the level by exactly one and returns true if and only if the level
before the call was 0: from level 0 the new level is 1 and the result is true; from a
level `n ≥ 1` the new level is `n + 1 ≥ 2` and the result is false. -/
theorem C4_h_lit_open (t : PDFTokenizer) (h : t.obj_string.parenthesis_level.val < INT_MAX) :
    (h_lit_open t).2.obj_string.parenthesis_level.val
      = t.obj_string.parenthesis_level.val + 1 ∧
    ((h_lit_open t).1 = true ↔ t.obj_string.parenthesis_level.val = 0) ∧
    (t.obj_string.parenthesis_level.val = 0 →
      (h_lit_open t).2.obj_string.parenthesis_level.val = 1 ∧ (h_lit_open t).1 = true) ∧
    (1 ≤ t.obj_string.parenthesis_level.val →
      2 ≤ (h_lit_open t).2.obj_string.parenthesis_level.val ∧ (h_lit_open t).1 = false) := by
  have hv := CInt.preInc_val _ h
  simp only [h_lit_open, hv, decide_eq_true_eq, decide_eq_false_iff_not]
  refine ⟨trivial, ?_, ?_, ?_⟩
  · omega
  · intro h0; omega
  · intro h1; omega

/-- C4 at the new tokenizer (level 0) and at level 1. -/
theorem C4_h_lit_open_witness :
    (h_lit_open fresh).2.obj_string.parenthesis_level.val = 1 ∧
    (h_lit_open fresh).1 = true ∧
    (h_lit_open (h_lit_open fresh).2).2.obj_string.parenthesis_level.val = 2 ∧
    (h_lit_open (h_lit_open fresh).2).1 = false :=
  have h0 := (C4_h_lit_open fresh (by decide)).2.2.1 (by decide)
  have h1 := C4_h_lit_open (h_lit_open fresh).2 (by decide)
  ⟨h0.1, h0.2, by rw [h1.1, h0.1]; rfl, (h1.2.2.2 (by decide)).2⟩

/-- C5 fails as stated at `parenthesis_level = INT_MIN`: after `h_lit_close` the level is
`INT_MAX`, not the old level minus one. -/
theorem C5_h_lit_close_counterexample :
    (h_lit_close (at_level CInt.min)).2.obj_string.parenthesis_level.val = 2147483647 ∧
    (h_lit_close (at_level CInt.min)).2.obj_string.parenthesis_level.val ≠
      (at_level CInt.min).obj_string.parenthesis_level.val - 1 := by
  decide

/-- C5, amended: for every state whose `parenthesis_level` is above `INT_MIN`,
`h_lit_close` decreases the level by exactly one and returns true if and only if the level
after the call is 0, that is, the level before the call was 1; from a level `n ≥ 2` it
returns false and leaves the level at `n - 1 ≥ 1`. -/
theorem C5_h_lit_close (t : PDFTokenizer) (h : INT_MIN < t.obj_string.parenthesis_level.val) :
    (h_lit_close t).2.obj_string.parenthesis_level.val
      = t.obj_string.parenthesis_level.val - 1 ∧
    ((h_lit_close t).1 = true ↔ (h_lit_close t).2.obj_string.parenthesis_level.val = 0) ∧
    ((h_lit_close t).1 = true ↔ t.obj_string.parenthesis_level.val = 1) ∧
    (2 ≤ t.obj_string.parenthesis_level.val →
      (h_lit_close t).1 = false ∧ 1 ≤ (h_lit_close t).2.obj_string.parenthesis_level.val) := by
  have hv := CInt.preDec_val _ h
  simp only [h_lit_close, hv, decide_eq_true_eq, decide_eq_false_iff_not]
  refine ⟨trivial, trivial, ?_, ?_⟩
  · omega
  · intro h2; omega

/-- C5 at level 2 and then at level 1. -/
theorem C5_h_lit_close_witness :
    (h_lit_close (at_level (CInt.ofInt 2 (by decide)))).1 = false ∧
    (h_lit_close (at_level (CInt.ofInt 2 (by decide)))).2.obj_string.parenthesis_level.val
      = 1 ∧
    (h_lit_close (at_level (CInt.ofInt 1 (by decide)))).1 = true ∧
    (h_lit_close (at_level (CInt.ofInt 1 (by decide)))).2.obj_string.parenthesis_level.val
      = 0 :=
  have h2 := C5_h_lit_close (at_level (CInt.ofInt 2 (by decide))) (by decide)
  have h1 := C5_h_lit_close (at_level (CInt.ofInt 1 (by decide))) (by decide)
  ⟨(h2.2.2.2 (by decide)).1, h2.1, h1.2.2.1.2 (by decide), h1.1⟩

/-! ## Sequences of opens and closes (C6) -/

/-- Opens minus closes of a sequence. -/
theorem net_nil : ((opens []) : Int) - (closes [] : Int) = 0 := by
  simp [opens, closes]

/-- An open in front adds one to opens minus closes. -/
theorem net_cons_open (ps : List Paren) :
    (opens (Paren.lit_open :: ps) : Int) - (closes (Paren.lit_open :: ps) : Int)
      = 1 + ((opens ps : Int) - (closes ps : Int)) := by
  simp [opens, closes, List.count_cons]
  omega

/-- A close in front takes one from opens minus closes. -/
theorem net_cons_close (ps : List Paren) :
    (opens (Paren.lit_close :: ps) : Int) - (closes (Paren.lit_close :: ps) : Int)
      = -1 + ((opens ps : Int) - (closes ps : Int)) := by
  simp [opens, closes, List.count_cons]
  omega

/-- While the running level stays in the `int` range, the level after a sequence of calls
is the level before it plus opens minus closes, and the call at position `k` returns
whether the level after it is 1 (an open) or 0 (a close). -/
theorem run_calls_spec (ps : List Paren) : ∀ (t : PDFTokenizer),
    (∀ k, k ≤ ps.length →
      INT_MIN ≤ t.level + ((opens (ps.take k) : Int) - (closes (ps.take k) : Int)) ∧
      t.level + ((opens (ps.take k) : Int) - (closes (ps.take k) : Int)) ≤ INT_MAX) →
    (run_calls t ps).2.level = t.level + ((opens ps : Int) - (closes ps : Int)) ∧
    (run_calls t ps).1.length = ps.length ∧
    ∀ k, k < ps.length →
      (run_calls t ps).1[k]? = some (decide
        (t.level + ((opens (ps.take (k + 1)) : Int) - (closes (ps.take (k + 1)) : Int))
          = if ps[k]? = some Paren.lit_open then 1 else 0)) := by
  induction ps with
  | nil =>
    intro t _
    simp [run_calls, opens, closes]
  | cons p ps ih =>
    intro t hr
    have h1 := hr 1 (by simp)
    have hstep : (call t p).2.level
        = t.level + ((opens [p] : Int) - (closes [p] : Int)) ∧
        (call t p).1 = decide (t.level + ((opens [p] : Int) - (closes [p] : Int))
          = if p = Paren.lit_open then 1 else 0) := by
      cases p with
      | lit_open =>
        have hlt : t.obj_string.parenthesis_level.val < INT_MAX := by
          have := h1.2
          simp [opens, closes, level] at this
          omega
        have := h_lit_open_of_lt t hlt
        simp [call, opens, closes, level, this.1, this.2]
      | lit_close =>
        have hlt : INT_MIN < t.obj_string.parenthesis_level.val := by
          have := h1.1
          simp [opens, closes, level] at this
          omega
        have := h_lit_close_of_gt t hlt
        simp [call, opens, closes, level, this.1, this.2]
        omega
    have hshift : ∀ l : List Paren,
        (opens (p :: l) : Int) - (closes (p :: l) : Int)
          = ((opens [p] : Int) - (closes [p] : Int)) + ((opens l : Int) - (closes l : Int)) := by
      intro l
      cases p with
      | lit_open => rw [net_cons_open, net_cons_open, net_nil]; omega
      | lit_close => rw [net_cons_close, net_cons_close, net_nil]; omega
    have ih' := ih (call t p).2 (by
      intro k hk
      have := hr (k + 1) (by simp; omega)
      rw [List.take_succ_cons, hshift] at this
      rw [hstep.1]
      omega)
    refine ⟨?_, ?_, ?_⟩
    · simp only [run_calls]
      rw [ih'.1, hstep.1, hshift ps]
      omega
    · simp only [run_calls, List.length_cons, ih'.2.1]
    · intro k hk
      cases k with
      | zero =>
        simp only [run_calls, List.getElem?_cons_zero, hstep.2]
        simp
      | succ k =>
        have hk' : k < ps.length := by simpa using hk
        simp only [run_calls, List.getElem?_cons_succ]
        rw [ih'.2.2 k hk', hstep.1, List.take_succ_cons, hshift (List.take (k + 1) ps),
          Int.add_assoc]

/-- One more call in a prefix: an open adds one to opens minus closes, a close takes one. -/
theorem net_take_succ (ps : List Paren) (k : Nat) (hk : k < ps.length) :
    (opens (ps.take (k + 1)) : Int) - (closes (ps.take (k + 1)) : Int)
      = ((opens (ps.take k) : Int) - (closes (ps.take k) : Int))
        + (if ps[k]? = some Paren.lit_open then 1 else -1) := by
  rw [List.take_succ, List.getElem?_eq_getElem hk]
  cases ps[k] <;> simp [opens, closes, List.count_append] <;> omega

/-- In a balanced group opens minus closes of a prefix is never negative, and it is zero
only for the empty prefix and for the whole sequence. -/
theorem balanced_group_net (ps : List Paren) (hb : balanced_group ps) (k : Nat)
    (hk : k ≤ ps.length) :
    0 ≤ (opens (ps.take k) : Int) - (closes (ps.take k) : Int) ∧
    ((opens (ps.take k) : Int) - (closes (ps.take k) : Int) = 0 ↔ k = 0 ∨ k = ps.length) := by
  rcases Nat.eq_zero_or_pos k with h0 | hpos
  · subst h0
    simp [opens, closes]
  · rcases Nat.lt_or_ge k ps.length with hlt | hge
    · have := hb.2 k hlt hpos
      constructor
      · omega
      · constructor
        · intro h; omega
        · intro h; omega
    · have hkn : k = ps.length := Nat.le_antisymm hk hge
      subst hkn
      rw [List.take_length]
      have := hb.1
      constructor
      · omega
      · constructor
        · intro _; exact Or.inr rfl
        · intro _; omega

/-- C6, amended: for every sequence of `h_lit_open` /
`h_lit_close` calls run from `parenthesis_level` 0 that forms one balanced group and whose
nesting never exceeds `INT_MAX`, the results are true on the first call, true on the last
call and false on every call in between, the final level is 0, and a non-empty group has
at least two calls, the first an `h_lit_open` and the last an `h_lit_close`. -/
theorem C6_balanced_group (t : PDFTokenizer) (ps : List Paren)
    (h0 : t.obj_string.parenthesis_level.val = 0)
    (hb : balanced_group ps) (hn : nesting_le ps INT_MAX) :
    (run_calls t ps).1
      = (List.range ps.length).map (fun k => decide (k = 0 ∨ k + 1 = ps.length)) ∧
    (run_calls t ps).2.obj_string.parenthesis_level.val = 0 ∧
    (ps ≠ [] →
      2 ≤ ps.length ∧ ps.head? = some Paren.lit_open ∧
        ps.getLast? = some Paren.lit_close) := by
  have hnet := balanced_group_net ps hb
  have hspec := run_calls_spec ps t (by
    intro k hk
    have h1 := (hnet k hk).1
    have h2 := hn k (by omega)
    have h3 : INT_MIN ≤ 0 := by decide
    simp only [level, h0]
    omega)
  have hfinal : (opens ps : Int) - (closes ps : Int) = 0 := by
    have := hb.1
    omega
  -- the call at position `k`
  have hres : ∀ k, k < ps.length →
      ((ps[k]? = some Paren.lit_open ∧ k + 1 ≠ ps.length) ∨
        (ps[k]? = some Paren.lit_close ∧ k ≠ 0)) ∧
      (run_calls t ps).1[k]? = some (decide (k = 0 ∨ k + 1 = ps.length)) := by
    intro k hk
    have hk0 := hnet k (by omega)
    have hk1 := hnet (k + 1) (by omega)
    have hsucc := net_take_succ ps k hk
    have hcase : ps[k]? = some Paren.lit_open ∨ ps[k]? = some Paren.lit_close := by
      rw [List.getElem?_eq_getElem hk]
      cases ps[k] <;> simp
    rw [hspec.2.2 k hk]
    simp only [level, h0, Int.zero_add]
    rcases hcase with ho | hc
    · rw [ho] at hsucc ⊢
      simp only [if_true] at hsucc ⊢
      have hiff : (k = 0 ∨ k + 1 = ps.length) ↔ k = 0 := by
        constructor
        · rintro (h | h)
          · exact h
          · have := hk1.2.2 (Or.inr h)
            omega
        · exact Or.inl
      refine ⟨Or.inl ⟨trivial, ?_⟩, ?_⟩
      · intro h
        have := hk1.2.2 (Or.inr h)
        omega
      · refine congrArg some (decide_eq_decide.2 ?_)
        rw [hiff]
        constructor
        · intro h
          have := hk0.2.1 (by omega)
          omega
        · intro h
          have := hk0.2.2 (Or.inl h)
          omega
    · rw [hc] at hsucc ⊢
      simp only [reduceCtorEq, Option.some.injEq, if_false] at hsucc ⊢
      have hiff : (k = 0 ∨ k + 1 = ps.length) ↔ k + 1 = ps.length := by
        constructor
        · rintro (h | h)
          · have := hk0.2.2 (Or.inl h)
            have := hk1.1
            omega
          · exact h
        · exact Or.inr
      refine ⟨Or.inr ⟨trivial, ?_⟩, ?_⟩
      · intro h
        have := hk0.2.2 (Or.inl h)
        have := hk1.1
        omega
      · refine decide_eq_decide.2 ?_
        rw [hiff]
        constructor
        · intro h
          have := hk1.2.1 h
          omega
        · intro h
          exact hk1.2.2 (Or.inr h)
  refine ⟨?_, ?_, ?_⟩
  · apply List.ext_getElem?
    intro k
    rcases Nat.lt_or_ge k ps.length with hlt | hge
    · rw [(hres k hlt).2, List.getElem?_map, List.getElem?_range hlt]
      rfl
    · rw [List.getElem?_eq_none (by rw [hspec.2.1]; exact hge),
        List.getElem?_eq_none (by simp; exact hge)]
  · have := hspec.1
    simp only [level, h0] at this
    omega
  · intro hne
    have hpos : 0 < ps.length := List.length_pos.2 hne
    have hfirst := (hres 0 hpos).1
    have hlast := (hres (ps.length - 1) (by omega)).1
    have h2 : 2 ≤ ps.length := by
      rcases hfirst with ⟨_, h⟩ | ⟨_, h⟩
      · omega
      · exact absurd rfl h
    refine ⟨h2, ?_, ?_⟩
    · rw [List.head?_eq_getElem?]
      rcases hfirst with ⟨h, _⟩ | ⟨_, h⟩
      · exact h
      · exact absurd rfl h
    · rw [List.getLast?_eq_getElem?]
      rcases hlast with ⟨_, h⟩ | ⟨h, _⟩
      · omega
      · exact h

/-- C6 on the parentheses of `(a(b)c)`: open, open, close, close yields true, false,
false, true and ends at level 0. -/
theorem C6_balanced_group_witness :
    balanced_group parens_a_b_c ∧
    (run_calls fresh parens_a_b_c).1 = [true, false, false, true] ∧
    (run_calls fresh parens_a_b_c).2.obj_string.parenthesis_level.val = 0 :=
  have h := C6_balanced_group fresh parens_a_b_c (by decide) (by decide) (by decide)
  ⟨by decide, h.1.trans (by decide), h.2.1⟩

/-- Reduction modulo `2 ^ 32` may be done before or after an addition. -/
theorem wrap_val_add (x y : Int) :
    (CInt.wrap ((CInt.wrap x).val + y)).val = (CInt.wrap (x + y)).val := by
  simp only [CInt.wrap, INT_MIN]
  omega

/-- In a run of `n` opens the call at position `k` returns whether the level before the
run plus `k + 1`, reduced modulo `2 ^ 32`, is 1. -/
theorem run_calls_opens (rest : List Paren) (n : Nat) : ∀ (t : PDFTokenizer) (x : Int) (k : Nat),
    t.obj_string.parenthesis_level.val = (CInt.wrap x).val → k < n →
    (run_calls t (List.replicate n Paren.lit_open ++ rest)).1[k]?
      = some (decide ((CInt.wrap (x + (k : Int) + 1)).val = 1)) := by
  induction n with
  | zero => intro t x k _ hk; omega
  | succ n ih =>
    intro t x k hx hk
    rw [List.replicate_succ, List.cons_append]
    have hnext : (call t Paren.lit_open).2.obj_string.parenthesis_level.val
        = (CInt.wrap (x + 1)).val := by
      simp only [call, h_lit_open, CInt.preInc, hx]
      exact wrap_val_add x 1
    cases k with
    | zero =>
      simp only [run_calls, List.getElem?_cons_zero]
      have : (call t Paren.lit_open).1
          = decide ((call t Paren.lit_open).2.obj_string.parenthesis_level.val = 1) := rfl
      rw [this, hnext]
      simp
    | succ k =>
      simp only [run_calls, List.getElem?_cons_succ]
      rw [ih (call t Paren.lit_open).2 (x + 1) k hnext (by omega)]
      have : x + 1 + (k : Int) + 1 = x + ((k + 1 : Nat) : Int) + 1 := by
        push_cast; omega
      rw [this]

/-- The sequence of `n` opens followed by `n` closes is one balanced group. -/
theorem balanced_group_replicate (n : Nat) :
    balanced_group
      (List.replicate n Paren.lit_open ++ List.replicate n Paren.lit_close) := by
  constructor
  · simp [opens, closes, List.count_append, List.count_replicate]
  · intro k hk hpos
    simp only [List.length_append, List.length_replicate] at hk
    simp only [opens, closes, List.take_append_eq_append_take, List.take_replicate,
      List.count_append, List.count_replicate, List.length_replicate]
    simp
    omega

/-- C6 fails as stated in the 32-bit model: in the balanced group of `2 ^ 32 + 1` opens
followed by as many closes, run from level 0, the call at position `2 ^ 32` is an
`h_lit_open`, is not the first call, and returns true. -/
theorem C6_balanced_group_counterexample :
    fresh.obj_string.parenthesis_level.val = 0 ∧
    balanced_group deep_group ∧
    deep_group[4294967296]? = some Paren.lit_open ∧
    (run_calls fresh deep_group).1[4294967296]? = some true := by
  refine ⟨rfl, balanced_group_replicate _, ?_, ?_⟩
  · rw [deep_group, List.getElem?_append_left (by rw [List.length_replicate]; decide),
      List.getElem?_replicate]
    rw [if_pos (by decide)]
  · rw [deep_group,
      run_calls_opens _ 4294967297 fresh 0 4294967296 (by decide) (by decide)]
    exact congrArg some (by decide)

/-! ## The level stays non-negative only for matched closes (C7) -/

/-- C7 fails as stated: from the new tokenizer (level 0) a single `h_lit_close` returns
false and leaves `parenthesis_level` at -1. -/
theorem C7_level_nonneg_counterexample :
    fresh.obj_string.parenthesis_level.val = 0 ∧
    (h_lit_close fresh).1 = false ∧
    (run_ops fresh [StringOp.lit_close]).obj_string.parenthesis_level.val = -1 ∧
    ¬ 0 ≤ (run_ops fresh [StringOp.lit_close]).obj_string.parenthesis_level.val := by
  decide

/-- While every close is matched and no open overflows, a non-negative level stays
non-negative. -/
theorem level_nonneg_of_matched (ops : List StringOp) : ∀ (t : PDFTokenizer),
    0 ≤ t.obj_string.parenthesis_level.val → matched t ops = true →
    0 ≤ (run_ops t ops).obj_string.parenthesis_level.val := by
  induction ops with
  | nil => intro t h _; exact h
  | cons op ops ih =>
    intro t h hm
    cases op with
    | lit_open =>
      simp only [matched, Bool.and_eq_true, decide_eq_true_eq] at hm
      refine ih _ ?_ hm.2
      have := (h_lit_open_of_lt t hm.1).1
      simp only [apply_op, this]
      omega
    | lit_close =>
      simp only [matched, Bool.and_eq_true, decide_eq_true_eq] at hm
      refine ih _ ?_ hm.2
      have hgt : INT_MIN < t.obj_string.parenthesis_level.val := by
        have : INT_MIN < 1 := by decide
        omega
      have := (h_lit_close_of_gt t hgt).1
      simp only [apply_op, this]
      omega
    | clear =>
      simp only [matched] at hm
      refine ih _ ?_ hm
      simp only [apply_op, ObjectString.clear]
      decide

/-- C7, amended: for every state reached from a state with `parenthesis_level` 0 by a
finite sequence of `h_lit_open`, `h_lit_close` and `ObjectString::clear` operations in
which every `h_lit_close` is called at a level of at least 1 and every `h_lit_open` below
`INT_MAX`, `parenthesis_level ≥ 0`; an unmatched close (`h_lit_close` at level 0) returns
false and leaves the level at -1. -/
theorem C7_level_nonneg (t : PDFTokenizer) (ops : List StringOp)
    (h0 : t.obj_string.parenthesis_level.val = 0) :
    (matched t ops = true → 0 ≤ (run_ops t ops).obj_string.parenthesis_level.val) ∧
    (h_lit_close t).1 = false ∧
    (h_lit_close t).2.obj_string.parenthesis_level.val = -1 := by
  have hgt : INT_MIN < t.obj_string.parenthesis_level.val := by
    rw [h0]; decide
  have hc := h_lit_close_of_gt t hgt
  refine ⟨level_nonneg_of_matched ops t (by omega), ?_, ?_⟩
  · rw [hc.2, h0]; decide
  · rw [hc.1, h0]; decide

/-- C7 on the operations open, open, close, clear, open, close from the new tokenizer. -/
theorem C7_level_nonneg_witness :
    0 ≤ (run_ops fresh [StringOp.lit_open, StringOp.lit_open, StringOp.lit_close,
      StringOp.clear, StringOp.lit_open, StringOp.lit_close]).obj_string.parenthesis_level.val ∧
    (h_lit_close fresh).2.obj_string.parenthesis_level.val = -1 :=
  have h := C7_level_nonneg fresh [StringOp.lit_open, StringOp.lit_open, StringOp.lit_close,
    StringOp.clear, StringOp.lit_open, StringOp.lit_close] (by decide)
  ⟨h.1 (by decide), h.2.2⟩

/-! ## Reset (C8) -/

/-- After `DictionaryEntry::clear` the key reads as the empty string. -/
theorem cstr_clear (e : DictionaryEntry) : cstr e.clear.key = [] := by
  have hlen := e.key_size
  cases hk : e.key with
  | nil => rw [hk] at hlen; exact absurd hlen (by decide)
  | cons a rest => simp [DictionaryEntry.clear, hk, cstr, List.takeWhile]

/-- C8: from any tokenizer state, `clear()` on all four trackers yields
`parenthesis_level = 0`, `nesting_level = 0`, `array_level = 0`, `key_value = true` and a
key that reads as the empty string; these are the values of a new tokenizer; and
`h_lit_str` and `h_hex_str` return false right after the reset, whatever key was stored
before. -/
theorem C8_reset (t : PDFTokenizer) :
    t.clear_all.obj_string.parenthesis_level.val = 0 ∧
    t.clear_all.obj_array.nesting_level.val = 0 ∧
    t.clear_all.obj_dictionary.array_level.val = 0 ∧
    t.clear_all.obj_dictionary.key_value = true ∧
    cstr t.clear_all.obj_entry.key = [] ∧
    (fresh.obj_string.parenthesis_level = t.clear_all.obj_string.parenthesis_level ∧
      fresh.obj_array.nesting_level = t.clear_all.obj_array.nesting_level ∧
      fresh.obj_dictionary.array_level = t.clear_all.obj_dictionary.array_level ∧
      fresh.obj_dictionary.key_value = t.clear_all.obj_dictionary.key_value ∧
      cstr fresh.obj_entry.key = cstr t.clear_all.obj_entry.key) ∧
    t.clear_all.h_lit_str = false ∧
    t.clear_all.h_hex_str = false := by
  have hk : cstr t.clear_all.obj_entry.key = [] := cstr_clear t.obj_entry
  have hf : t.clear_all.h_lit_str = false := by
    rw [h_lit_str_eq_false_iff, hk]
    simp
  refine ⟨rfl, rfl, rfl, rfl, hk, ⟨rfl, rfl, rfl, rfl, ?_⟩, hf, ?_⟩
  · rw [hk]; decide
  · rw [h_hex_str_eq]; exact hf

/-- C8 on the tokenizer whose key is `/JS`: the key matches before the reset and not
after it. -/
theorem C8_reset_example :
    state_JS.h_lit_str = true ∧ state_JS.clear_all.h_lit_str = false ∧
    state_JS.clear_all.h_hex_str = false := by
  decide

/-! ## Truncated keys (C9) -/

/-- The C string of a NUL-free name followed by a NUL is the name. -/
theorem cstr_append_nul (name pad : List Byte) (h : ∀ b ∈ name, b ≠ 0) :
    cstr (name ++ 0 :: pad) = name := by
  induction name with
  | nil => simp [cstr, List.takeWhile]
  | cons a rest ih =>
    have ha : a ≠ 0 := h a (List.mem_cons_self _ _)
    have hrest := ih (fun b hb => h b (List.mem_cons_of_mem _ hb))
    simp only [cstr] at hrest
    simpa [cstr, List.takeWhile, ha] using hrest

/-- C9: for every name without a NUL, when the key buffer holds the name truncated to at
most 15 bytes plus the terminator and the two depths are equal, the match predicate is
true if and only if the name is exactly `/JS`; a name of 16 or more bytes gives false. -/
theorem C9_truncation (t : PDFTokenizer) (name : List Byte)
    (hname : ∀ b ∈ name, b ≠ 0)
    (hkey : holds_name t.obj_entry name)
    (hdepth : t.obj_dictionary.array_level = t.obj_array.nesting_level) :
    (t.h_lit_str = true ↔ name = [47, 74, 83]) ∧
    (16 ≤ name.length → t.h_lit_str = false) := by
  obtain ⟨pad, hpad⟩ := hkey
  have hc : cstr t.obj_entry.key = name.take (PDFTOKENIZER_NAME_MAX_SIZE - 1) := by
    rw [hpad]
    exact cstr_append_nul _ _ (fun b hb => hname b (List.mem_of_mem_take hb))
  have hiff : name.take (PDFTOKENIZER_NAME_MAX_SIZE - 1) = [47, 74, 83] ↔
      name = [47, 74, 83] := by
    constructor
    · intro h
      have hl := congrArg List.length h
      simp only [List.length_take, PDFTOKENIZER_NAME_MAX_SIZE, List.length_cons,
        List.length_nil] at hl
      have hle : name.length ≤ PDFTOKENIZER_NAME_MAX_SIZE - 1 := by
        simp only [PDFTOKENIZER_NAME_MAX_SIZE]
        omega
      rw [List.take_of_length_le hle] at h
      exact h
    · intro h
      rw [h]
      rfl
  have hmain : t.h_lit_str = true ↔ name = [47, 74, 83] := by
    rw [h_lit_str_eq_true_iff, hc, hiff]
    exact ⟨fun h => h.2, fun h => ⟨hdepth, h⟩⟩
  refine ⟨hmain, ?_⟩
  intro hlen
  rw [← Bool.not_eq_true, hmain]
  intro h
  rw [h] at hlen
  exact absurd hlen (by decide)

/-- C9 on the name `/JS`, which matches, and on the 19-byte name `/JS0123456789abcdef`,
which is cut to 15 bytes and does not. -/
theorem C9_truncation_witness :
    state_JS.h_lit_str = true ∧
    h_lit_str { obj_entry := entry_long } = false :=
  ⟨(C9_truncation state_JS [47, 74, 83] (by simp)
      ⟨[0, 0, 0, 0, 0, 0, 0, 0, 0, 0, 0, 0], rfl⟩ rfl).1.2 rfl,
   (C9_truncation { obj_entry := entry_long }
      [47, 74, 83, 48, 49, 50, 51, 52, 53, 54, 55, 56, 57, 97, 98, 99, 100, 101, 102]
      (by simp) ⟨[], rfl⟩ rfl).2 (by decide)⟩

/-! ## Result codes (C10) -/

/-- C10 fails as stated: `PDFRet` has a fourth enumerator, `MAX`, with value 3, which is
none of the three terminal codes. -/
theorem C10_PDFRet_counterexample :
    PDFRet.MAX ≠ PDFRet.EOS ∧
    PDFRet.MAX ≠ PDFRet.NOT_NAME_IN_DICTIONARY_KEY ∧
    PDFRet.MAX ≠ PDFRet.INCOMPLETE_ARRAY_IN_DICTIONARY ∧
    PDFRet.MAX.toInt = 3 := by
  decide

/-- C10, amended: every value of `PDFRet` is one of the three terminal codes `EOS`,
`NOT_NAME_IN_DICTIONARY_KEY`, `INCOMPLETE_ARRAY_IN_DICTIONARY` or the enumerator `MAX`;
the four have the pairwise distinct values 0, 1, 2, 3, and `EOS` is the zero value. -/
theorem C10_PDFRet (r : PDFRet) :
    (r = PDFRet.EOS ∨ r = PDFRet.NOT_NAME_IN_DICTIONARY_KEY ∨
      r = PDFRet.INCOMPLETE_ARRAY_IN_DICTIONARY ∨ r = PDFRet.MAX) ∧
    PDFRet.EOS.toInt = 0 ∧
    PDFRet.NOT_NAME_IN_DICTIONARY_KEY.toInt = 1 ∧
    PDFRet.INCOMPLETE_ARRAY_IN_DICTIONARY.toInt = 2 ∧
    PDFRet.MAX.toInt = 3 ∧
    PDFRet.EOS ≠ PDFRet.NOT_NAME_IN_DICTIONARY_KEY ∧
    PDFRet.EOS ≠ PDFRet.INCOMPLETE_ARRAY_IN_DICTIONARY ∧
    PDFRet.NOT_NAME_IN_DICTIONARY_KEY ≠ PDFRet.INCOMPLETE_ARRAY_IN_DICTIONARY ∧
    (r.toInt = 0 ↔ r = PDFRet.EOS) := by
  refine ⟨?_, rfl, rfl, rfl, rfl, by decide, by decide, by decide, ?_⟩
  · cases r <;> simp
  · cases r <;> simp [PDFRet.toInt]

/-! ## Frame of the handlers (C11) -/

/-- C11: each handler touches at most one tracker. For every state, `h_lit_open` and
`h_lit_close` leave `obj_array`, `obj_dictionary` and `obj_entry` unchanged, so that the
state after the call is the state before it with a new `obj_string.parenthesis_level`;
`h_lit_str` and `h_hex_str` leave the whole state unchanged. -/
theorem C11_frame (t : PDFTokenizer) :
    ((h_lit_open t).2.obj_array = t.obj_array ∧
      (h_lit_open t).2.obj_dictionary = t.obj_dictionary ∧
      (h_lit_open t).2.obj_entry = t.obj_entry ∧
      (h_lit_open t).2 = { t with obj_string :=
        { parenthesis_level := (h_lit_open t).2.obj_string.parenthesis_level } }) ∧
    ((h_lit_close t).2.obj_array = t.obj_array ∧
      (h_lit_close t).2.obj_dictionary = t.obj_dictionary ∧
      (h_lit_close t).2.obj_entry = t.obj_entry ∧
      (h_lit_close t).2 = { t with obj_string :=
        { parenthesis_level := (h_lit_close t).2.obj_string.parenthesis_level } }) ∧
    ((h_lit_str_call t).2 = t ∧ (h_lit_str_call t).1 = h_lit_str t) ∧
    ((h_hex_str_call t).2 = t ∧ (h_hex_str_call t).1 = h_hex_str t) := by
  refine ⟨⟨rfl, rfl, rfl, rfl⟩, ⟨rfl, rfl, rfl, rfl⟩, ⟨rfl, rfl⟩, ⟨rfl, rfl⟩⟩

/-- C11 on a concrete state: an open and a close change the level of `state_JS_stale` and
nothing else, also at the ends of the `int` range. -/
theorem C11_frame_examples :
    (h_lit_open state_JS_stale).2
      = { state_JS_stale with obj_string := { parenthesis_level := CInt.ofInt 6 (by decide) } } ∧
    (h_lit_close state_JS_stale).2
      = { state_JS_stale with obj_string := { parenthesis_level := CInt.ofInt 4 (by decide) } } ∧
    (h_lit_open (at_level CInt.max)).2.obj_entry = (at_level CInt.max).obj_entry ∧
    (h_lit_close (at_level CInt.min)).2.obj_dictionary = (at_level CInt.min).obj_dictionary := by
  decide

/-! ## What the match predicate reads (C12) -/

/-- The C string of a buffer is read from its part up to the first NUL. -/
theorem cstr_through_nul (l : List Byte) : cstr (through_nul l) = cstr l := by
  induction l with
  | nil => rfl
  | cons c r ih =>
    simp only [cstr] at ih
    by_cases hc : c = 0
    · simp [through_nul, cstr, List.takeWhile, hc]
    · simpa [through_nul, cstr, List.takeWhile, hc] using ih

/-- The match predicate is a function of the two depths and of the key's C string. -/
theorem h_lit_str_congr (s t : PDFTokenizer)
    (harr : s.obj_dictionary.array_level = t.obj_dictionary.array_level)
    (hnest : s.obj_array.nesting_level = t.obj_array.nesting_level)
    (hkey : cstr s.obj_entry.key = cstr t.obj_entry.key) :
    s.h_lit_str = t.h_lit_str := by
  rw [Bool.eq_iff_iff, h_lit_str_eq_true_iff, h_lit_str_eq_true_iff, harr, hnest, hkey]

/-- C12: the match predicate ignores everything but the two depths and the key string.
For any two states that agree on `array_level`, on `nesting_level` and on the key bytes
up to and including the first NUL, `h_lit_str` and `h_hex_str` return the same result,
whatever `key_value`, `parenthesis_level` and the key bytes after the first NUL are; so
when the first state holds the key `/JS` at equal depths, the second matches too. -/
theorem C12_predicate_reads (s t : PDFTokenizer)
    (harr : s.obj_dictionary.array_level = t.obj_dictionary.array_level)
    (hnest : s.obj_array.nesting_level = t.obj_array.nesting_level)
    (hkey : through_nul s.obj_entry.key = through_nul t.obj_entry.key) :
    s.h_lit_str = t.h_lit_str ∧
    s.h_hex_str = t.h_hex_str ∧
    (s.obj_dictionary.array_level = s.obj_array.nesting_level →
      cstr s.obj_entry.key = [47, 74, 83] →
      t.h_lit_str = true ∧ t.h_hex_str = true) := by
  have hc : cstr s.obj_entry.key = cstr t.obj_entry.key := by
    rw [← cstr_through_nul s.obj_entry.key, hkey, cstr_through_nul]
  have hl := h_lit_str_congr s t harr hnest hc
  refine ⟨hl, by rw [h_hex_str_eq, h_hex_str_eq, hl], ?_⟩
  intro hd hjs
  have hs : s.h_lit_str = true := (h_lit_str_eq_true_iff s).2 ⟨hd, hjs⟩
  exact ⟨hl ▸ hs, by rw [h_hex_str_eq, ← hl]; exact hs⟩

/-- C12 on two concrete states: `state_JS` and `state_JS_stale` differ in `key_value`, in
`parenthesis_level` and in the key bytes after the first NUL, and both match. -/
theorem C12_predicate_reads_witness :
    state_JS.obj_dictionary.key_value ≠ state_JS_stale.obj_dictionary.key_value ∧
    state_JS.obj_string.parenthesis_level ≠ state_JS_stale.obj_string.parenthesis_level ∧
    state_JS.obj_entry.key ≠ state_JS_stale.obj_entry.key ∧
    state_JS.h_lit_str = state_JS_stale.h_lit_str ∧
    state_JS_stale.h_lit_str = true ∧
    state_JS_stale.h_hex_str = true :=
  have h := C12_predicate_reads state_JS state_JS_stale (by decide) (by decide) (by decide)
  have h2 := h.2.2 (by decide) (by decide)
  ⟨by decide, by decide, by decide, h.1, h2.1, h2.2⟩

end PDFTokenizer

end jsn
